import Mathlib

/-!
BadgerDB buffer manager (`src/buffer.cpp`)

A shallow embedding of `badgerdb::BufMgr` and of the properties its
specification states about it.

The buffer manager is embedded as explicit state passing: every member
function takes the manager object and returns a `Result` carrying the
object as the call left it.  The loop of `allocBuf` is driven by a fuel
argument, one unit per iteration of `while(true)`.
-/

namespace badgerdb

/-- Identity of a `File` object (the address held in a `File*`). -/
abbrev File := Nat

/-- Page number inside a file (`PageId`). -/
abbrev PageId := Nat

/-- Index of a frame of the pool (`FrameId`, a 32 bit unsigned integer like `numBufs`). -/
abbrev FrameId := Nat

/-- Contents of one page-sized buffer (`Page`). -/
abbrev Page := List Nat

/-- Modelled from the spec: the frame descriptor `BufDesc`, declared in `buffer.h`, which is
not among the sources.  The fields are the ones `buffer.cpp` reads and writes and the ones
the spec lists (`fileRef`, `pageNo`, `frameId`, `pinCount`, `dirty`, `valid`, `refBit`);
`pinCnt` is an `int` (`int pinCnt = this->bufDescTable[frame].pinCnt`). -/
structure BufDesc where
  file : File
  pageNo : PageId
  frameNo : FrameId
  pinCnt : Int
  dirty : Bool
  valid : Bool
  refbit : Bool
deriving DecidableEq

/-- One entry of the Page Index: `(file, pageNo)` is cached in frame `frameNo`. -/
structure HashEntry where
  file : File
  pageNo : PageId
  frameNo : FrameId
deriving DecidableEq

/-- Modelled from the spec: the Page Index `BufHashTbl`, declared in `bufHashTbl.h`, which is
not among the sources: "a mapping from (file-identity, page-number) to frame-id, supporting
insert, remove, and lookup with a not-found outcome".  It is kept as the list of its
entries. -/
abbrev BufHashTbl := List HashEntry

/-- The test "this entry has key `(file, pageNo)`". -/
def HashEntry.hasKey (file : File) (pageNo : PageId) (e : HashEntry) : Bool :=
  e.file == file && e.pageNo == pageNo

/-- Modelled from the spec: `BufHashTbl::lookup`, `lookup(fileRef, pageNo) → frameId | notFound`;
`none` is the not-found outcome (`HashNotFoundException`). -/
def BufHashTbl.lookup (h : BufHashTbl) (file : File) (pageNo : PageId) : Option FrameId :=
  (h.find? (HashEntry.hasKey file pageNo)).map HashEntry.frameNo

/-- Modelled from the spec: `BufHashTbl::remove`, `remove(fileRef, pageNo)`; on an absent key
it signals the not-found outcome (`none`, `HashNotFoundException`), otherwise the entry of
the key is gone. -/
def BufHashTbl.remove (h : BufHashTbl) (file : File) (pageNo : PageId) : Option BufHashTbl :=
  if (h.find? (HashEntry.hasKey file pageNo)).isSome then
    some (h.eraseP (HashEntry.hasKey file pageNo))
  else none

/-- A call issued to the Page Store (the `File` objects), in the order issued. -/
inductive StoreCall where
  | writePage (file : File) (page : Page)
  | deletePage (file : File) (pageNo : PageId)
deriving DecidableEq

/-- The object `BufMgr`: its members `numBufs`, `bufDescTable`, `bufPool`, `hashTable`,
`clockHand`, and the log `store` of the Page Store calls issued so far. -/
structure BufMgr where
  numBufs : Nat
  bufDescTable : List BufDesc
  bufPool : List Page
  hashTable : BufHashTbl
  clockHand : FrameId
  store : List StoreCall
deriving DecidableEq

/-- The exceptions `buffer.cpp` throws or lets through. -/
inductive Exn where
  | BufferExceededException
  | PageNotPinnedException (file : File) (pageNo : PageId) (frame : FrameId)
  | HashNotFoundException (file : File) (pageNo : PageId)
deriving DecidableEq

/-- How a call ends: it returns (`ok`), an exception leaves it (`throw`), it runs into
undefined behaviour of C++ (`undefined`: remainder by zero, an index outside an array, signed
overflow), or its loop is still running when the fuel is used up (`outOfFuel`). -/
inductive Result (α : Type) where
  | ok (a : α) (s : BufMgr)
  | throw (e : Exn) (s : BufMgr)
  | undefined
  | outOfFuel
deriving DecidableEq

/-- The manager object a call leaves behind, when it returns or throws. -/
def Result.state? {α : Type} : Result α → Option BufMgr
  | .ok _ s => some s
  | .throw _ s => some s
  | .undefined => none
  | .outOfFuel => none

/-- The local `htsize` of the constructor, `((((int) (bufs * 1.2))*2)/2)+1`, the size handed to
the hash table.  `bufs * 1.2` is a `double`; for a 32 bit `bufs` its truncation
`(int) (bufs * 1.2)` is `6 * bufs / 5` (the rounding of `1.2` and of the product moves no
product across an integer).  The conversion is undefined when that value is no `int`
(from 2^31 on, `bufs >= 1789569707`), and `* 2` on the `int` is a signed overflow when the
product is no `int` (`bufs >= 894784854`): `none` in both cases. -/
def htsize (bufs : Nat) : Option Nat :=
  let t := 6 * bufs / 5
  if 2147483648 ≤ t then none
  else if 2147483648 ≤ t * 2 then none
  else some (t * 2 / 2 + 1)

/-- The constructor `BufMgr::BufMgr(bufs)`: `bufs` invalid frames numbered by position, a pool
of `bufs` pages, an empty index of size `htsize`, the hand on `bufs - 1` (unsigned arithmetic
on 32 bits); `none` when the computation of `htsize` is undefined.  The fields the
constructor of `BufDesc` sets are not visible in the sources and are taken as 0 and false; the
pages of `new Page[bufs]` are taken as empty. -/
def BufMgr.new (bufs : Nat) : Option BufMgr :=
  match htsize bufs with
  | none => none
  | some _ =>
    some
      { numBufs := bufs
        bufDescTable := (List.range bufs).map fun i =>
          { file := 0, pageNo := 0, frameNo := i, pinCnt := 0, dirty := false, valid := false,
            refbit := false }
        bufPool := List.replicate bufs []
        hashTable := []
        clockHand := (bufs + 4294967296 - 1) % 4294967296
        store := [] }

/-- The member `advanceClock`: `clockHand = (clockHand + 1) % numBufs` on 32 bit unsigned
integers; the remainder by `numBufs == 0` is undefined (`none`). -/
def BufMgr.advanceClock (s : BufMgr) : Option BufMgr :=
  if s.numBufs = 0 then none
  else some { s with clockHand := ((s.clockHand + 1) % 4294967296) % s.numBufs }

/-- The loop of `allocBuf`, with the local `numPinned`.  `buffer` is a copy of the descriptor
under the hand (`BufDesc buffer = this->bufDescTable[clockHand]`), so `buffer.refbit = false`
changes no descriptor of the table and the iteration after it runs on the same table.
`numPinned` is an `int`: `numPinned ++` at 2147483647 is a signed overflow. -/
def allocBufLoop : Nat → BufMgr → Nat → Result FrameId
  | 0, _, _ => .outOfFuel
  | fuel + 1, s, numPinned =>
    match s.advanceClock with
    | none => .undefined
    | some s1 =>
      match s1.bufDescTable[s1.clockHand]? with
      | none => .undefined
      | some buffer =>
        if numPinned = s1.numBufs then .throw .BufferExceededException s1
        else if !buffer.valid then .ok buffer.frameNo s1
        else if buffer.refbit then allocBufLoop fuel s1 numPinned
        else if buffer.pinCnt ≠ 0 then
          if numPinned = 2147483647 then .undefined
          else allocBufLoop fuel s1 (numPinned + 1)
        else if buffer.dirty then
          match s1.bufPool[buffer.frameNo]? with
          | none => .undefined
          | some page =>
            .ok buffer.frameNo { s1 with store := s1.store ++ [.writePage buffer.file page] }
        else
          match s1.hashTable.remove buffer.file buffer.pageNo with
          | none => .throw (.HashNotFoundException buffer.file buffer.pageNo) s1
          | some h => .ok buffer.frameNo { s1 with hashTable := h }

/-- The member `allocBuf(frame)`: the frame is returned through `frame`. -/
def BufMgr.allocBuf (fuel : Nat) (s : BufMgr) : Result FrameId :=
  allocBufLoop fuel s 0

/-- The member `readPage(file, pageNo, page)`: its body is empty. -/
def BufMgr.readPage (s : BufMgr) (_file : File) (_pageNo : PageId) : Result Unit :=
  .ok () s

/-- The member `unPinPage(file, pageNo, dirty)`.  The `HashNotFoundException` of `lookup` is
caught and the call returns; `pinCnt --` at -2147483648 is a signed overflow. -/
def BufMgr.unPinPage (s : BufMgr) (file : File) (pageNo : PageId) (dirty : Bool) :
    Result Unit :=
  match s.hashTable.lookup file pageNo with
  | none => .ok () s
  | some frame =>
    match s.bufDescTable[frame]? with
    | none => .undefined
    | some d =>
      if d.pinCnt = 0 then .throw (.PageNotPinnedException file pageNo frame) s
      else if d.pinCnt = -2147483648 then .undefined
      else
        let d1 := { d with pinCnt := d.pinCnt - 1 }
        let d2 := if dirty then { d1 with dirty := true } else d1
        .ok () { s with bufDescTable := s.bufDescTable.set frame d2 }

/-- The member `flushFile(file)`: its body is empty. -/
def BufMgr.flushFile (s : BufMgr) (_file : File) : Result Unit :=
  .ok () s

/-- The member `allocPage(file, pageNo, page)`: its body is empty. -/
def BufMgr.allocPage (s : BufMgr) (_file : File) : Result Unit :=
  .ok () s

/-- The member `disposePage(file, pageNo)`: the index entry is looked up and removed, a
`HashNotFoundException` of either call is swallowed, then the page is deleted from the file. -/
def BufMgr.disposePage (s : BufMgr) (file : File) (pageNo : PageId) : Result Unit :=
  let s1 :=
    match s.hashTable.lookup file pageNo with
    | none => s
    | some _ =>
      match s.hashTable.remove file pageNo with
      | none => s
      | some h => { s with hashTable := h }
  .ok () { s1 with store := s1.store ++ [.deletePage file pageNo] }


/-! ## Concrete pools -/

/-- A valid descriptor of page `pageNo` of file 7 in frame `frameNo`. -/
def frameOf (pageNo : PageId) (frameNo : FrameId) (pinCnt : Int) (dirty refbit : Bool) :
    BufDesc :=
  { file := 7, pageNo := pageNo, frameNo := frameNo, pinCnt := pinCnt, dirty := dirty,
    valid := true, refbit := refbit }

/-- One frame, valid, pinned once, with its refbit set, the hand on it. -/
def poolOnePinned : BufMgr where
  numBufs := 1
  bufDescTable := [frameOf 1 0 1 false true]
  bufPool := [[1]]
  hashTable := [⟨7, 1, 0⟩]
  clockHand := 0
  store := []

/-- Three frames holding pages 1, 2, 3 of file 7 after three reads (every refbit set), page 1
still pinned, pages 2 and 3 unpinned, page 3 dirty, the hand on frame 2. -/
def poolAfterReads : BufMgr where
  numBufs := 3
  bufDescTable := [frameOf 1 0 1 false true, frameOf 2 1 0 false true, frameOf 3 2 0 true true]
  bufPool := [[1], [2], [3]]
  hashTable := [⟨7, 1, 0⟩, ⟨7, 2, 1⟩, ⟨7, 3, 2⟩]
  clockHand := 2
  store := []

/-- Two frames: frame 0 valid, unpinned, refbit set; frame 1 valid, pinned, refbit clear; the
hand on frame 0. -/
def poolOneFree : BufMgr where
  numBufs := 2
  bufDescTable := [frameOf 1 0 0 false true, frameOf 2 1 1 false false]
  bufPool := [[1], [2]]
  hashTable := [⟨7, 1, 0⟩, ⟨7, 2, 1⟩]
  clockHand := 0
  store := []

/-- Three frames with every refbit clear: page 1 pinned, page 2 unpinned and clean, page 3
unpinned and dirty; the hand on frame 2. -/
def poolCold : BufMgr where
  numBufs := 3
  bufDescTable :=
    [frameOf 1 0 1 false false, frameOf 2 1 0 false false, frameOf 3 2 0 true false]
  bufPool := [[1], [2], [3]]
  hashTable := [⟨7, 1, 0⟩, ⟨7, 2, 1⟩, ⟨7, 3, 2⟩]
  clockHand := 2
  store := []

/-- The descriptors are numbered by position, `bufDescTable[i].frameNo == i`, as the
constructor leaves them. -/
def FrameNoOk (s : BufMgr) : Prop :=
  s.bufDescTable.map BufDesc.frameNo = List.range s.bufDescTable.length

instance FrameNoOk.decidable (s : BufMgr) : Decidable (FrameNoOk s) := by
  unfold FrameNoOk; infer_instance

/-- Bidirectional consistency of the descriptor table and the Page Index, in the words of the
spec: every valid frame has exactly one index entry, keyed by its `(file, pageNo)` and mapping
to its frame id, and every index entry maps to a valid frame with that file and page number. -/
def consistent (s : BufMgr) : Bool :=
  ((List.range s.bufDescTable.length).all fun i =>
    match s.bufDescTable[i]? with
    | none => true
    | some d =>
      !d.valid ||
        s.hashTable.filter (HashEntry.hasKey d.file d.pageNo) == [⟨d.file, d.pageNo, i⟩]) &&
  s.hashTable.all fun e =>
    match s.bufDescTable[e.frameNo]? with
    | none => false
    | some d => d.valid && d.file == e.file && d.pageNo == e.pageNo

/-- No descriptor of the table has a negative `pinCnt`. -/
def PinsNonneg (s : BufMgr) : Prop :=
  ∀ d ∈ s.bufDescTable, 0 ≤ d.pinCnt

instance PinsNonneg.decidable (s : BufMgr) : Decidable (PinsNonneg s) := by
  unfold PinsNonneg; infer_instance

/-- A call of one operation of the buffer manager with its arguments; `allocBuf` carries the
fuel of its loop. -/
inductive Op where
  | allocBuf (fuel : Nat)
  | readPage (file : File) (pageNo : PageId)
  | unPinPage (file : File) (pageNo : PageId) (dirty : Bool)
  | allocPage (file : File)
  | disposePage (file : File) (pageNo : PageId)
  | flushFile (file : File)
deriving DecidableEq

/-- The manager object after the call `op`, whether it returned or threw; `none` when the call
ran into undefined behaviour or its loop did not end within the fuel. -/
def Op.run : Op → BufMgr → Option BufMgr
  | .allocBuf fuel, s => (s.allocBuf fuel).state?
  | .readPage file pageNo, s => (s.readPage file pageNo).state?
  | .unPinPage file pageNo dirty, s => (s.unPinPage file pageNo dirty).state?
  | .allocPage file, s => (s.allocPage file).state?
  | .disposePage file pageNo, s => (s.disposePage file pageNo).state?
  | .flushFile file, s => (s.flushFile file).state?

/-- The manager object after a sequence of calls, the caller going on after an exception. -/
def runOps : List Op → BufMgr → Option BufMgr
  | [], s => some s
  | op :: ops, s => (op.run s).bind (runOps ops)

/-- Two frames holding pages 1 and 2 of file 7 after two reads and two unpins: both valid,
unpinned, clean, refbit set; the hand on frame 1. -/
def poolHot : BufMgr where
  numBufs := 2
  bufDescTable := [frameOf 1 0 0 false true, frameOf 2 1 0 false true]
  bufPool := [[1], [2]]
  hashTable := [⟨7, 1, 0⟩, ⟨7, 2, 1⟩]
  clockHand := 1
  store := []

/-- Two frames holding pages 1 and 2 of file 7, both unpinned with the refbit clear, page 2
dirty; the hand on frame 1. -/
def poolIdle : BufMgr where
  numBufs := 2
  bufDescTable := [frameOf 1 0 0 false false, frameOf 2 1 0 true false]
  bufPool := [[1], [2]]
  hashTable := [⟨7, 1, 0⟩, ⟨7, 2, 1⟩]
  clockHand := 1
  store := []

/-- Two frames: frame 0 holds page 1 of file 7, unpinned, refbit set; frame 1 is invalid; the
hand on frame 1. -/
def poolHalf : BufMgr where
  numBufs := 2
  bufDescTable :=
    [frameOf 1 0 0 false true,
      { file := 0, pageNo := 0, frameNo := 1, pinCnt := 0, dirty := false, valid := false,
        refbit := false }]
  bufPool := [[1], []]
  hashTable := [⟨7, 1, 0⟩]
  clockHand := 1
  store := []

/-- An invalid descriptor numbered `frameNo`, every other field 0 or false. -/
def emptyFrame (frameNo : FrameId) : BufDesc :=
  { file := 0, pageNo := 0, frameNo := frameNo, pinCnt := 0, dirty := false, valid := false,
    refbit := false }

/-- Three invalid frames numbered 0, 1, 2, empty pages, an empty index, the hand on frame 2:
the object `BufMgr(3)` constructs. -/
def poolFresh : BufMgr where
  numBufs := 3
  bufDescTable := [emptyFrame 0, emptyFrame 1, emptyFrame 2]
  bufPool := [[], [], []]
  hashTable := []
  clockHand := 2
  store := []

/-- The Page Index holds at most one entry for the key `(file, pageNo)` (the invariant "at most
one entry per key" of the spec, for this key). -/
def BufHashTbl.atMostOne (h : BufHashTbl) (file : File) (pageNo : PageId) : Prop :=
  (h.filter (HashEntry.hasKey file pageNo)).length ≤ 1

instance BufHashTbl.atMostOne.decidable (h : BufHashTbl) (file : File) (pageNo : PageId) :
    Decidable (h.atMostOne file pageNo) := by
  unfold BufHashTbl.atMostOne; infer_instance

/-- The frame the hand is on after one `advanceClock`, when `numBufs` is not 0. -/
def BufMgr.nextFrame (s : BufMgr) : FrameId :=
  ((s.clockHand + 1) % 4294967296) % s.numBufs

/-! ## The loop of `allocBuf` -/

theorem advanceClock_eq {s s1 : BufMgr} (h : s.advanceClock = some s1) :
    s.numBufs ≠ 0 ∧
      s1 = { s with clockHand := ((s.clockHand + 1) % 4294967296) % s.numBufs } := by
  unfold BufMgr.advanceClock at h
  split at h
  · simp at h
  · rename_i hN
    simp only [Option.some.injEq] at h
    exact ⟨hN, h.symm⟩

/-- What a returning run of the loop did: the descriptor under the final hand is the one
selected, the table, the pool and `numBufs` are as before, and the index and the store log
changed according to the branch that selected it. -/
theorem allocBufLoop_ok (fuel : Nat) :
    ∀ (s s2 : BufMgr) (numPinned : Nat) (frame : FrameId),
      allocBufLoop fuel s numPinned = .ok frame s2 →
      ∃ d, s.bufDescTable[s2.clockHand]? = some d ∧ d.frameNo = frame ∧
        s2.numBufs = s.numBufs ∧ s2.bufDescTable = s.bufDescTable ∧ s2.bufPool = s.bufPool ∧
        s2.clockHand < s.numBufs ∧
        ((d.valid = false ∧ s2.hashTable = s.hashTable ∧ s2.store = s.store) ∨
         (d.valid = true ∧ d.refbit = false ∧ d.pinCnt = 0 ∧ d.dirty = true ∧
            s2.hashTable = s.hashTable ∧
            ∃ page, s.bufPool[frame]? = some page ∧
              s2.store = s.store ++ [.writePage d.file page]) ∨
         (d.valid = true ∧ d.refbit = false ∧ d.pinCnt = 0 ∧ d.dirty = false ∧
            s.hashTable.remove d.file d.pageNo = some s2.hashTable ∧ s2.store = s.store)) := by
  induction fuel with
  | zero => intro s s2 numPinned frame h; simp [allocBufLoop] at h
  | succ n ih =>
    intro s s2 numPinned frame h
    unfold allocBufLoop at h
    split at h
    · simp at h
    · rename_i s1 hadv
      obtain ⟨hN, hs1⟩ := advanceClock_eq hadv
      have hlt : s1.clockHand < s.numBufs := by
        subst hs1; exact Nat.mod_lt _ (Nat.pos_of_ne_zero hN)
      have e1 : s1.numBufs = s.numBufs := by subst hs1; rfl
      have e2 : s1.bufDescTable = s.bufDescTable := by subst hs1; rfl
      have e3 : s1.bufPool = s.bufPool := by subst hs1; rfl
      have e4 : s1.hashTable = s.hashTable := by subst hs1; rfl
      have e5 : s1.store = s.store := by subst hs1; rfl
      split at h
      · simp at h
      · rename_i buffer hbuf
        rw [e2] at hbuf
        split_ifs at h with c1 c2 c3 c4 c5 c6
        · simp only [Result.ok.injEq] at h
          obtain ⟨hf, hs⟩ := h
          subst hs
          refine ⟨buffer, hbuf, hf, e1, e2, e3, hlt, Or.inl ⟨?_, e4, e5⟩⟩
          simpa using c2
        · have hr := ih s1 s2 _ frame h
          rw [e1, e2, e3, e4, e5] at hr
          exact hr
        · have hr := ih s1 s2 _ frame h
          rw [e1, e2, e3, e4, e5] at hr
          exact hr
        · split at h
          · simp at h
          · rename_i page hpage
            simp only [Result.ok.injEq] at h
            obtain ⟨hf, hs⟩ := h
            subst hs
            rw [e3, hf] at hpage
            refine ⟨buffer, hbuf, hf, e1, e2, e3, hlt, Or.inr (Or.inl ⟨?_, ?_, ?_, c6, e4, ?_⟩)⟩
            · simpa using c2
            · simpa using c3
            · simpa using c4
            · exact ⟨page, hpage, by simp [e5]⟩
        · split at h
          · simp at h
          · rename_i tbl hrem
            simp only [Result.ok.injEq] at h
            obtain ⟨hf, hs⟩ := h
            subst hs
            rw [e4] at hrem
            refine ⟨buffer, hbuf, hf, e1, e2, e3, hlt, Or.inr (Or.inr ⟨?_, ?_, ?_, ?_, hrem, e5⟩)⟩
            · simpa using c2
            · simpa using c3
            · simpa using c4
            · simpa using c6


theorem frameNo_of_ok {s : BufMgr} (hok : FrameNoOk s) {i : Nat} {d : BufDesc}
    (h : s.bufDescTable[i]? = some d) : d.frameNo = i := by
  have hi : i < s.bufDescTable.length := by
    rcases Nat.lt_or_ge i s.bufDescTable.length with hlt | hge
    · exact hlt
    · rw [List.getElem?_eq_none_iff.mpr hge] at h; simp at h
  have h1 : (s.bufDescTable.map BufDesc.frameNo)[i]? = some d.frameNo := by
    rw [List.getElem?_map, h]; rfl
  rw [hok, List.getElem?_range hi] at h1
  exact (Option.some.inj h1).symm

/-- On a table whose frames are all valid with the refbit set the loop never leaves the
`continue` of the refbit test: it neither returns nor throws, whatever the fuel. -/
theorem allocBufLoop_referenced (s : BufMgr) (hN : s.numBufs ≠ 0)
    (hlen : s.bufDescTable.length = s.numBufs)
    (hall : ∀ d ∈ s.bufDescTable, d.valid = true ∧ d.refbit = true)
    (numPinned : Nat) (hnp : numPinned ≠ s.numBufs) (fuel : Nat) :
    ∀ hand : FrameId, allocBufLoop fuel { s with clockHand := hand } numPinned = .outOfFuel := by
  induction fuel with
  | zero => intro hand; rfl
  | succ n ih =>
    intro hand
    have hlt : ((hand + 1) % 4294967296) % s.numBufs < s.bufDescTable.length := by
      rw [hlen]; exact Nat.mod_lt _ (Nat.pos_of_ne_zero hN)
    have hmem := hall _ (List.getElem_mem hlt)
    unfold allocBufLoop
    simp only [BufMgr.advanceClock, hN, if_false, List.getElem?_eq_getElem hlt, hnp, hmem.1,
      hmem.2, Bool.not_true, Bool.false_eq_true, if_true]
    exact ih _

/-- C1: whenever `allocBuf` returns a frame, the descriptor it selected (the one under the clock
hand, whose `frameNo` is the frame returned) is invalid or has `pinCnt == 0` in the descriptor
table, which the call leaves as it found it; when the descriptors are numbered by position,
that descriptor is the one of the returned frame. -/
theorem allocBuf_selects_unpinned (fuel : Nat) (s s2 : BufMgr) (frame : FrameId)
    (h : s.allocBuf fuel = .ok frame s2) :
    s2.bufDescTable = s.bufDescTable ∧
    (∃ d, s.bufDescTable[s2.clockHand]? = some d ∧ d.frameNo = frame ∧
      (d.valid = false ∨ d.pinCnt = 0)) ∧
    (FrameNoOk s →
      ∃ d, s.bufDescTable[frame]? = some d ∧ (d.valid = false ∨ d.pinCnt = 0)) := by
  obtain ⟨d, h1, h2, -, h4, -, -, h7⟩ := allocBufLoop_ok fuel s s2 0 frame h
  have hd : d.valid = false ∨ d.pinCnt = 0 := by
    rcases h7 with h7 | h7 | h7
    · exact Or.inl h7.1
    · exact Or.inr h7.2.2.1
    · exact Or.inr h7.2.2.1
  refine ⟨h4, ⟨d, h1, h2, hd⟩, fun hok => ⟨d, ?_, hd⟩⟩
  have := frameNo_of_ok hok h1
  rw [← h2, this]; exact h1

theorem allocBuf_selects_unpinned_witness :
    poolCold.allocBuf 5
        = .ok 1 { poolCold with clockHand := 1, hashTable := [⟨7, 1, 0⟩, ⟨7, 3, 2⟩] } ∧
      ∃ d, poolCold.bufDescTable[1]? = some d ∧ (d.valid = false ∨ d.pinCnt = 0) :=
  ⟨by decide,
    (allocBuf_selects_unpinned 5 poolCold
      { poolCold with clockHand := 1, hashTable := [⟨7, 1, 0⟩, ⟨7, 3, 2⟩] } 1
      (by decide)).2.2 (by decide)⟩

/-- C2, at a pool of one frame that is valid, pinned and has its refbit set: `allocBuf` does not
throw `BufferExceededException`; the copy `buffer` takes the cleared refbit with it, the hand
comes back to the same descriptor, and the loop runs on for every amount of fuel. -/
theorem allocBuf_all_pinned_diverges :
    ∀ fuel : Nat, poolOnePinned.allocBuf fuel = .outOfFuel := by
  intro fuel
  have hall : ∀ d ∈ poolOnePinned.bufDescTable, d.valid = true ∧ d.refbit = true := by decide
  exact allocBufLoop_referenced poolOnePinned (by decide) (by decide) hall 0 (by decide) fuel 0

/-- C3, at the three frames of the claim (pages 1, 2, 3 in frames 0, 1, 2, every refbit set,
pinCnt 1, 0, 0, frame 2 dirty, hand on 2): `allocBuf` does not return frame 1, it returns
nothing for any amount of fuel. -/
theorem allocBuf_after_reads_diverges :
    ∀ fuel : Nat, poolAfterReads.allocBuf fuel = .outOfFuel := by
  intro fuel
  have hall : ∀ d ∈ poolAfterReads.bufDescTable, d.valid = true ∧ d.refbit = true := by decide
  exact allocBufLoop_referenced poolAfterReads (by decide) (by decide) hall 0 (by decide) fuel 2

/-- C4, at two frames of which frame 0 is unpinned (valid, refbit set) and frame 1 pinned, the
hand on frame 0: the fourth iteration of `allocBuf` throws `BufferExceededException`,
`numPinned` having counted the pinned frame 1 twice, once in each sweep. -/
theorem allocBuf_exhausted_with_unpinned_frame :
    poolOneFree.bufDescTable[0]? = some (frameOf 1 0 0 false true) ∧
      ∀ k : Nat, poolOneFree.allocBuf (k + 4) = .throw .BufferExceededException poolOneFree :=
  ⟨by decide, fun _ => rfl⟩

/-- C5: whenever `allocBuf` returns a frame, with `d` the descriptor it selected: if `d` is valid
and dirty the call issues exactly one Page Store call, `writePage` on the file of `d` with the
contents of pool slot `frame`; if `d` is invalid or clean it issues none. -/
theorem allocBuf_writeback (fuel : Nat) (s s2 : BufMgr) (frame : FrameId)
    (h : s.allocBuf fuel = .ok frame s2) :
    ∃ d, s.bufDescTable[s2.clockHand]? = some d ∧ d.frameNo = frame ∧
      (FrameNoOk s → s2.clockHand = frame) ∧
      (d.valid = true ∧ d.dirty = true →
        ∃ page, s.bufPool[frame]? = some page ∧
          s2.store = s.store ++ [.writePage d.file page]) ∧
      (d.valid = false ∨ d.dirty = false → s2.store = s.store) := by
  obtain ⟨d, h1, h2, -, -, -, -, h7⟩ := allocBufLoop_ok fuel s s2 0 frame h
  refine ⟨d, h1, h2, fun hok => ?_, fun hvd => ?_, fun hvd => ?_⟩
  · rw [← h2]; exact (frameNo_of_ok hok h1).symm
  · rcases h7 with h7 | h7 | h7
    · rw [h7.1] at hvd; simp at hvd
    · exact h7.2.2.2.2.2
    · rw [h7.2.2.2.1] at hvd; simp at hvd
  · rcases h7 with h7 | h7 | h7
    · exact h7.2.2
    · rcases hvd with hv | hv
      · rw [h7.1] at hv; simp at hv
      · rw [h7.2.2.2.1] at hv; simp at hv
    · exact h7.2.2.2.2.2

theorem allocBuf_writeback_witness :
    ({ poolCold with clockHand := 1 } : BufMgr).allocBuf 5
        = .ok 2 { poolCold with store := [.writePage 7 [3]] } ∧
      ∃ d, poolCold.bufDescTable[2]? = some d ∧ d.frameNo = 2 ∧
        (FrameNoOk poolCold → 2 = 2) ∧
        (d.valid = true ∧ d.dirty = true →
          ∃ page, poolCold.bufPool[2]? = some page ∧
            [StoreCall.writePage 7 [3]] = [] ++ [StoreCall.writePage d.file page]) ∧
        (d.valid = false ∨ d.dirty = false → [StoreCall.writePage 7 [3]] = []) :=
  ⟨by decide,
    allocBuf_writeback 5 { poolCold with clockHand := 1 }
      { poolCold with store := [.writePage 7 [3]] } 2 (by decide)⟩


/-! ## Pin counts -/

/-- The loop of `allocBuf` writes to no descriptor: the table is the same after every call that
returns or throws. -/
theorem allocBufLoop_table (fuel : Nat) :
    ∀ (s s2 : BufMgr) (numPinned : Nat),
      (allocBufLoop fuel s numPinned).state? = some s2 →
      s2.bufDescTable = s.bufDescTable := by
  induction fuel with
  | zero => intro s s2 numPinned h; simp [allocBufLoop, Result.state?] at h
  | succ n ih =>
    intro s s2 numPinned h
    unfold allocBufLoop at h
    split at h
    · simp [Result.state?] at h
    · rename_i s1 hadv
      obtain ⟨-, hs1⟩ := advanceClock_eq hadv
      have e2 : s1.bufDescTable = s.bufDescTable := by subst hs1; rfl
      split at h
      · simp [Result.state?] at h
      · split_ifs at h with c1 c2 c3 c4 c5 c6
        · simp only [Result.state?, Option.some.injEq] at h
          rw [← h, e2]
        · simp only [Result.state?, Option.some.injEq] at h
          rw [← h, e2]
        · rw [ih s1 s2 _ h, e2]
        · simp [Result.state?] at h
        · rw [ih s1 s2 _ h, e2]
        · split at h
          · simp [Result.state?] at h
          · simp only [Result.state?, Option.some.injEq] at h
            rw [← h]; exact e2
        · split at h
          · simp only [Result.state?, Option.some.injEq] at h
            rw [← h, e2]
          · simp only [Result.state?, Option.some.injEq] at h
            rw [← h]; exact e2

theorem unPinPage_pinsNonneg (s s2 : BufMgr) (file : File) (pageNo : PageId) (dirty : Bool)
    (h0 : PinsNonneg s) (h : (s.unPinPage file pageNo dirty).state? = some s2) :
    PinsNonneg s2 := by
  unfold BufMgr.unPinPage at h
  split at h
  · simp only [Result.state?, Option.some.injEq] at h
    rw [← h]; exact h0
  · rename_i frame hl
    split at h
    · simp [Result.state?] at h
    · rename_i d hd
      have hmem : d ∈ s.bufDescTable := List.getElem?_mem hd
      have hd0 : 0 ≤ d.pinCnt := h0 d hmem
      by_cases c1 : d.pinCnt = 0
      · simp only [c1, if_true, Result.state?, Option.some.injEq] at h
        rw [← h]; exact h0
      · by_cases c2 : d.pinCnt = -2147483648
        · omega
        · simp only [c1, c2, if_false, Result.state?, Option.some.injEq] at h
          rw [← h]
          intro d3 hd3
          rcases List.mem_or_eq_of_mem_set hd3 with hm | heq
          · exact h0 d3 hm
          · have hpos : 0 ≤ d.pinCnt - 1 := by omega
            subst heq
            cases dirty <;> simpa using hpos

theorem Op.run_pinsNonneg (op : Op) (s s2 : BufMgr) (h0 : PinsNonneg s)
    (h : op.run s = some s2) : PinsNonneg s2 := by
  cases op with
  | allocBuf fuel =>
    have := allocBufLoop_table fuel s s2 0 h
    unfold PinsNonneg; rw [this]; exact h0
  | readPage file pageNo =>
    simp only [Op.run, BufMgr.readPage, Result.state?, Option.some.injEq] at h
    rw [← h]; exact h0
  | unPinPage file pageNo dirty => exact unPinPage_pinsNonneg s s2 file pageNo dirty h0 h
  | allocPage file =>
    simp only [Op.run, BufMgr.allocPage, Result.state?, Option.some.injEq] at h
    rw [← h]; exact h0
  | disposePage file pageNo =>
    simp only [Op.run, BufMgr.disposePage, Result.state?, Option.some.injEq] at h
    rw [← h]
    intro d hd
    apply h0 d
    revert hd
    split
    · exact id
    · split <;> exact id
  | flushFile file =>
    simp only [Op.run, BufMgr.flushFile, Result.state?, Option.some.injEq] at h
    rw [← h]; exact h0


/-- C6, at `disposePage(7, 2)` on three consistent frames where page 2 of file 7 is resident in
frame 1: the index entry is removed and the descriptor is left valid, so frame 1 is a valid
frame without index entry after the call.  The clean eviction of `allocBuf` leaves the same
pool in the same way. -/
theorem disposePage_breaks_consistency :
    consistent poolCold = true ∧
      poolCold.disposePage 7 2
        = .ok () { poolCold with hashTable := [⟨7, 1, 0⟩, ⟨7, 3, 2⟩],
                                 store := [.deletePage 7 2] } ∧
      consistent { poolCold with hashTable := [⟨7, 1, 0⟩, ⟨7, 3, 2⟩],
                                 store := [.deletePage 7 2] } = false ∧
      poolCold.allocBuf 5
        = .ok 1 { poolCold with clockHand := 1, hashTable := [⟨7, 1, 0⟩, ⟨7, 3, 2⟩] } ∧
      consistent { poolCold with clockHand := 1, hashTable := [⟨7, 1, 0⟩, ⟨7, 3, 2⟩] }
        = false := by
  decide

theorem runOps_pinsNonneg (ops : List Op) :
    ∀ s s2 : BufMgr, PinsNonneg s → runOps ops s = some s2 → PinsNonneg s2 := by
  induction ops with
  | nil =>
    intro s s2 h0 h
    simp only [runOps, Option.some.injEq] at h
    rw [← h]; exact h0
  | cons op ops ih =>
    intro s s2 h0 h
    simp only [runOps] at h
    cases hop : op.run s with
    | none => rw [hop] at h; simp at h
    | some s1 =>
      rw [hop] at h
      exact ih s1 s2 (Op.run_pinsNonneg op s s1 h0 hop) h

/-- C7: from a manager object in which no `pinCnt` is negative, no call of an operation, with any
arguments, and no sequence of such calls leaves a descriptor with a negative `pinCnt`; a pool
whose pin counts are all 0 is such a start. -/
theorem pinCnt_never_negative (s : BufMgr) (h0 : PinsNonneg s) :
    (∀ (op : Op) (s2 : BufMgr), op.run s = some s2 → PinsNonneg s2) ∧
      (∀ (ops : List Op) (s2 : BufMgr), runOps ops s = some s2 → PinsNonneg s2) :=
  ⟨fun op s2 h => Op.run_pinsNonneg op s s2 h0 h,
   fun ops s2 h => runOps_pinsNonneg ops s s2 h0 h⟩

theorem pinCnt_never_negative_witness :
    PinsNonneg poolCold ∧
      runOps [.unPinPage 7 1 true, .unPinPage 7 1 false, .allocBuf 5, .disposePage 7 3] poolCold
        = some
            { poolCold with
                bufDescTable :=
                  [frameOf 1 0 0 true false, frameOf 2 1 0 false false,
                    frameOf 3 2 0 true false]
                hashTable := [⟨7, 1, 0⟩, ⟨7, 2, 1⟩]
                clockHand := 0
                store := [.writePage 7 [1], .deletePage 7 3] } ∧
      PinsNonneg
        { poolCold with
            bufDescTable :=
              [frameOf 1 0 0 true false, frameOf 2 1 0 false false, frameOf 3 2 0 true false]
            hashTable := [⟨7, 1, 0⟩, ⟨7, 2, 1⟩]
            clockHand := 0
            store := [.writePage 7 [1], .deletePage 7 3] } :=
  ⟨by decide, by decide,
    (pinCnt_never_negative poolCold (by decide)).2
      [.unPinPage 7 1 true, .unPinPage 7 1 false, .allocBuf 5, .disposePage 7 3] _ (by decide)⟩

/-- C8: when `(file, pageNo)` has an index entry for a frame whose `pinCnt` is 0, `unPinPage`
throws `PageNotPinnedException`, for either value of `dirty`, and the manager object
(descriptor table, index, clock hand, store log) is the one before the call. -/
theorem unPinPage_not_pinned (s : BufMgr) (file : File) (pageNo : PageId) (dirty : Bool)
    (frame : FrameId) (d : BufDesc)
    (hl : s.hashTable.lookup file pageNo = some frame)
    (hd : s.bufDescTable[frame]? = some d) (hp : d.pinCnt = 0) :
    s.unPinPage file pageNo dirty = .throw (.PageNotPinnedException file pageNo frame) s := by
  simp [BufMgr.unPinPage, hl, hd, hp]

theorem unPinPage_not_pinned_witness :
    poolCold.unPinPage 7 3 true = .throw (.PageNotPinnedException 7 3 2) poolCold :=
  unPinPage_not_pinned poolCold 7 3 true 2 (frameOf 3 2 0 true false) (by decide) (by decide)
    (by decide)

/-- C9: when `(file, pageNo)` has an index entry for frame `frame` whose `pinCnt` is positive,
`unPinPage` returns, and the manager object differs from the one before only in the
descriptor of `frame`: its `pinCnt` is one less and its `dirty` is true when `markDirty` is
true and as before when it is false. -/
theorem unPinPage_pinned (s : BufMgr) (file : File) (pageNo : PageId) (markDirty : Bool)
    (frame : FrameId) (d : BufDesc)
    (hl : s.hashTable.lookup file pageNo = some frame)
    (hd : s.bufDescTable[frame]? = some d) (hp : 0 < d.pinCnt) :
    ∃ s2, s.unPinPage file pageNo markDirty = .ok () s2 ∧
      s2.numBufs = s.numBufs ∧ s2.bufPool = s.bufPool ∧ s2.hashTable = s.hashTable ∧
      s2.clockHand = s.clockHand ∧ s2.store = s.store ∧
      s2.bufDescTable.length = s.bufDescTable.length ∧
      (∀ i, i ≠ frame → s2.bufDescTable[i]? = s.bufDescTable[i]?) ∧
      s2.bufDescTable[frame]?
        = some { d with pinCnt := d.pinCnt - 1, dirty := markDirty || d.dirty } := by
  have hlt : frame < s.bufDescTable.length := by
    obtain ⟨hlt, -⟩ := List.getElem?_eq_some.mp hd
    exact hlt
  have c1 : d.pinCnt ≠ 0 := by omega
  have c2 : d.pinCnt ≠ -2147483648 := by omega
  let d2 : BufDesc := { d with pinCnt := d.pinCnt - 1, dirty := markDirty || d.dirty }
  refine ⟨{ s with bufDescTable := s.bufDescTable.set frame d2 },
    ?_, rfl, rfl, rfl, rfl, rfl, ?_, ?_, ?_⟩
  · simp only [BufMgr.unPinPage, hl, hd, c1, c2, if_false]
    cases markDirty <;> rfl
  · exact List.length_set _ _ _
  · intro i hi
    exact List.getElem?_set_ne (Ne.symm hi)
  · exact List.getElem?_set_self hlt

theorem unPinPage_pinned_witness :
    ∃ s2, poolCold.unPinPage 7 1 false = .ok () s2 ∧
      s2.numBufs = 3 ∧ s2.bufPool = poolCold.bufPool ∧ s2.hashTable = poolCold.hashTable ∧
      s2.clockHand = 2 ∧ s2.store = [] ∧
      s2.bufDescTable.length = 3 ∧
      (∀ i, i ≠ 0 → s2.bufDescTable[i]? = poolCold.bufDescTable[i]?) ∧
      s2.bufDescTable[0]? = some (frameOf 1 0 0 false false) :=
  unPinPage_pinned poolCold 7 1 false 0 (frameOf 1 0 1 false false) (by decide) (by decide)
    (by decide)

/-- C10: when `(file, pageNo)` has no index entry, `unPinPage` returns without error and the
manager object (descriptor table, index, clock hand, store log) is the one before the call. -/
theorem unPinPage_absent (s : BufMgr) (file : File) (pageNo : PageId) (dirty : Bool)
    (hl : s.hashTable.lookup file pageNo = none) :
    s.unPinPage file pageNo dirty = .ok () s := by
  simp [BufMgr.unPinPage, hl]

theorem unPinPage_absent_witness : poolCold.unPinPage 7 9 true = .ok () poolCold :=
  unPinPage_absent poolCold 7 9 true (by decide)


/-! ## `disposePage`, eviction and the Page Index -/

theorem find?_eraseP_of_atMostOne (p : HashEntry → Bool) (h : List HashEntry)
    (hone : (h.filter p).length ≤ 1) : (h.eraseP p).find? p = none := by
  induction h with
  | nil => rfl
  | cons e t ih =>
    by_cases hp : p e = true
    · have hf : t.filter p = [] := by
        rw [List.filter_cons_of_pos hp] at hone
        simp only [List.length_cons] at hone
        exact List.length_eq_zero.mp (by omega)
      rw [List.eraseP_cons_of_pos hp]
      rw [List.find?_eq_none]
      intro x hx hpx
      have : x ∈ t.filter p := List.mem_filter.mpr ⟨hx, hpx⟩
      rw [hf] at this
      simp at this
    · have hone2 : (t.filter p).length ≤ 1 := by
        rw [List.filter_cons_of_neg hp] at hone
        exact hone
      rw [List.eraseP_cons_of_neg hp, List.find?_cons_of_neg _ hp]
      exact ih hone2

/-- C11, at `disposePage(7, 3)` where page 3 of file 7 is resident, dirty, in frame 2: the call
returns with the descriptor table as it was, frame 2 still has `valid == true`. -/
theorem disposePage_leaves_frame_valid :
    poolCold.hashTable.lookup 7 3 = some 2 ∧
      poolCold.disposePage 7 3
        = .ok () { poolCold with hashTable := [⟨7, 1, 0⟩, ⟨7, 2, 1⟩],
                                 store := [.deletePage 7 3] } ∧
      (poolCold.bufDescTable[2]?).map BufDesc.valid = some true := by
  decide

/-- C12: when `(file, pageNo)` has an index entry, `disposePage` returns having issued exactly
one Page Store call, `deletePage(pageNo)` on the file, and no `writePage`; the descriptor
table is untouched, the entry found is erased from the index, and the index, holding at most
one entry per key, has no entry for `(file, pageNo)` afterwards. -/
theorem disposePage_resident (s : BufMgr) (file : File) (pageNo : PageId) (frame : FrameId)
    (hl : s.hashTable.lookup file pageNo = some frame) :
    ∃ s2, s.disposePage file pageNo = .ok () s2 ∧
      s2.store = s.store ++ [.deletePage file pageNo] ∧
      s2.bufDescTable = s.bufDescTable ∧
      s2.hashTable = s.hashTable.eraseP (HashEntry.hasKey file pageNo) ∧
      (s.hashTable.atMostOne file pageNo → s2.hashTable.lookup file pageNo = none) := by
  have hfind : (s.hashTable.find? (HashEntry.hasKey file pageNo)).isSome = true := by
    unfold BufHashTbl.lookup at hl
    cases hf : s.hashTable.find? (HashEntry.hasKey file pageNo) with
    | none => rw [hf] at hl; simp at hl
    | some e => rfl
  refine ⟨{ s with hashTable := s.hashTable.eraseP (HashEntry.hasKey file pageNo),
                   store := s.store ++ [.deletePage file pageNo] }, ?_, rfl, rfl, rfl, ?_⟩
  · simp only [BufMgr.disposePage, hl, BufHashTbl.remove, hfind, if_true]
  · intro hone
    unfold BufHashTbl.lookup
    simp only [find?_eraseP_of_atMostOne _ _ hone, Option.map_none']

theorem disposePage_resident_witness :
    ∃ s2, poolCold.disposePage 7 3 = .ok () s2 ∧
      s2.store = [] ++ [.deletePage 7 3] ∧
      s2.bufDescTable = poolCold.bufDescTable ∧
      s2.hashTable = poolCold.hashTable.eraseP (HashEntry.hasKey 7 3) ∧
      (poolCold.hashTable.atMostOne 7 3 → s2.hashTable.lookup 7 3 = none) :=
  disposePage_resident poolCold 7 3 2 (by decide)

/-- C13, at the eviction of the dirty page 3 of file 7 from frame 2: `allocBuf` writes the page
back and returns frame 2 with the index as it was, the entry `(7, 3) -> 2` still in it. -/
theorem allocBuf_dirty_keeps_entry :
    ({ poolCold with clockHand := 1 } : BufMgr).allocBuf 5
        = .ok 2 { poolCold with store := [.writePage 7 [3]] } ∧
      ({ poolCold with store := [.writePage 7 [3]] } : BufMgr).hashTable.lookup 7 3
        = some 2 := by
  decide

/-- C14, at two valid, unpinned frames with the refbit set: `allocBuf` neither returns a frame
nor throws, whatever the number of iterations granted. -/
theorem allocBuf_hot_diverges :
    ∀ fuel : Nat, poolHot.allocBuf fuel = .outOfFuel := by
  intro fuel
  have hall : ∀ d ∈ poolHot.bufDescTable, d.valid = true ∧ d.refbit = true := by decide
  exact allocBufLoop_referenced poolHot (by decide) (by decide) hall 0 (by decide) fuel 1

/-- C15, at `readPage(7, 2)` where page 2 of file 7 is resident in frame 1 with `pinCnt == 0`
and the refbit clear: the call returns with the manager object as it was, so the refbit of
frame 1 is still clear and its `pinCnt` still 0, after one call and after two. -/
theorem readPage_hit_changes_nothing :
    poolCold.hashTable.lookup 7 2 = some 1 ∧
      poolCold.bufDescTable[1]? = some (frameOf 2 1 0 false false) ∧
      poolCold.readPage 7 2 = .ok () poolCold ∧
      runOps [.readPage 7 2, .readPage 7 2] poolCold = some poolCold := by
  decide

/-- C16, at `flushFile(7)` on two unpinned frames of file 7 of which frame 1 is dirty: the call
returns with the manager object as it was: no `writePage` is issued, frame 1 is still dirty
and the index still holds both entries of file 7. -/
theorem flushFile_changes_nothing :
    (∀ d ∈ poolIdle.bufDescTable, d.file = 7 ∧ d.pinCnt = 0) ∧
      poolIdle.flushFile 7 = .ok () poolIdle ∧
      poolIdle.store = [] ∧
      (poolIdle.bufDescTable[1]?).map BufDesc.dirty = some true ∧
      poolIdle.hashTable.lookup 7 2 = some 1 := by
  decide

/-- C17, at a pool whose frame 0 is valid with the refbit set and whose frame 1 is invalid, the
hand on frame 1: `allocBuf` visits frame 0, goes on, and returns frame 1 with the descriptor
table as it was, the refbit of frame 0 still set. -/
theorem allocBuf_refbit_stays_set :
    ∀ k : Nat, poolHalf.allocBuf (k + 2) = .ok 1 poolHalf ∧
      (poolHalf.bufDescTable[0]?).map BufDesc.refbit = some true :=
  fun _ => ⟨rfl, by decide⟩


/-! ## The frame `allocBuf` returns -/

theorem allocBufLoop_invalid_next (s : BufMgr) (d : BufDesc) (k numPinned : Nat)
    (hN : 1 ≤ s.numBufs) (hnp : numPinned ≠ s.numBufs)
    (hd : s.bufDescTable[s.nextFrame]? = some d) (hv : d.valid = false) :
    allocBufLoop (k + 1) s numPinned = .ok d.frameNo { s with clockHand := s.nextFrame } := by
  have hN0 : s.numBufs ≠ 0 := by omega
  unfold BufMgr.nextFrame at hd
  unfold allocBufLoop
  simp only [BufMgr.advanceClock, hN0, if_false, hd, hnp, hv, Bool.not_false, if_true,
    BufMgr.nextFrame]

/-- In a pool as the constructor leaves it (every frame invalid and numbered by position, the
hand on the last frame) the first call of `allocBuf` returns frame 0 in its first iteration. -/
theorem allocBuf_fresh (s : BufMgr) (k : Nat) (h1 : 1 ≤ s.numBufs)
    (h2 : s.numBufs < 4294967296) (hlen : s.bufDescTable.length = s.numBufs)
    (hinv : ∀ d ∈ s.bufDescTable, d.valid = false) (hok : FrameNoOk s)
    (hhand : s.clockHand = s.numBufs - 1) :
    s.allocBuf (k + 1) = .ok 0 { s with clockHand := 0 } := by
  have hnext : s.nextFrame = 0 := by
    unfold BufMgr.nextFrame
    have e : (s.numBufs - 1 + 1) % 4294967296 = s.numBufs := by omega
    rw [hhand, e, Nat.mod_self]
  have hpos : 0 < s.bufDescTable.length := by rw [hlen]; exact h1
  have hd : s.bufDescTable[s.nextFrame]? = some (s.bufDescTable.get ⟨0, hpos⟩) := by
    rw [hnext]; exact List.getElem?_eq_getElem hpos
  have hv : (s.bufDescTable.get ⟨0, hpos⟩).valid = false :=
    hinv _ (List.get_mem _ _ _)
  have hno : (s.bufDescTable.get ⟨0, hpos⟩).frameNo = 0 := by
    have := frameNo_of_ok hok hd
    rw [hnext] at this
    exact this
  have h := allocBufLoop_invalid_next s _ k 0 h1 (by omega) hd hv
  rw [hno, hnext] at h
  exact h

/-- What the constructor builds when `htsize` is defined. -/
theorem new_eq (N : Nat) (h : N < 894784854) :
    ∃ s, BufMgr.new N = some s ∧ s.numBufs = N ∧ s.bufDescTable.length = N ∧
      s.bufPool.length = N ∧ (∀ d ∈ s.bufDescTable, d.valid = false) ∧ FrameNoOk s ∧
      s.clockHand = (N + 4294967296 - 1) % 4294967296 ∧ s.hashTable = [] ∧ s.store = [] := by
  have c1 : ¬ 2147483648 ≤ 6 * N / 5 := by omega
  have c2 : ¬ 2147483648 ≤ 6 * N / 5 * 2 := by omega
  simp only [BufMgr.new, htsize, c1, c2, if_false]
  refine ⟨_, rfl, rfl, ?_, ?_, ?_, ?_, rfl, rfl, rfl⟩
  · simp
  · simp
  · intro d hd
    simp only [List.mem_map] at hd
    obtain ⟨i, -, rfl⟩ := hd
    rfl
  · unfold FrameNoOk
    simp only [List.map_map, List.length_map, List.length_range]
    exact List.map_id _

theorem new_undefined (N : Nat) (h : 894784854 ≤ N) : BufMgr.new N = none := by
  unfold BufMgr.new htsize
  by_cases c1 : 2147483648 ≤ 6 * N / 5
  · simp only [c1, if_true]
  · have c2 : 2147483648 ≤ 6 * N / 5 * 2 := by omega
    simp only [c1, c2, if_false, if_true]

/-- C18: in a pool of `numBufs >= 1` frames whose frame under the advanced hand, at position
`(clockHand + 1) % numBufs` of the 32 bit unsigned arithmetic, is invalid, `allocBuf` returns
in its first iteration the `frameNo` of that frame (its position when the descriptors are
numbered by position), with the hand on it and with the descriptor table, the index and the
store log as they were.  Hence in every pool of `N >= 1` frames that are all invalid and
numbered by position, the hand on `N - 1`, the first call returns frame 0 and leaves the hand
on 0; the constructor builds exactly such a pool (`numBufs = N`, `N` descriptors, `N` pages,
every frame invalid, `frameNo[i] == i`, hand on `N - 1`, empty index) for every
`1 <= N < 894784854`, and from `894784854` on its computation of `htsize` is undefined. -/
theorem allocBuf_invalid_next :
    (∀ (s : BufMgr) (d : BufDesc) (k : Nat), 1 ≤ s.numBufs →
        s.bufDescTable[s.nextFrame]? = some d → d.valid = false →
        s.allocBuf (k + 1) = .ok d.frameNo { s with clockHand := s.nextFrame } ∧
          (FrameNoOk s → d.frameNo = s.nextFrame) ∧
          (s.clockHand + 1 < 4294967296 → s.nextFrame = (s.clockHand + 1) % s.numBufs)) ∧
      (∀ (s : BufMgr) (k : Nat), 1 ≤ s.numBufs → s.numBufs < 4294967296 →
        s.bufDescTable.length = s.numBufs → (∀ d ∈ s.bufDescTable, d.valid = false) →
        FrameNoOk s → s.clockHand = s.numBufs - 1 →
        s.allocBuf (k + 1) = .ok 0 { s with clockHand := 0 }) ∧
      (∀ N k : Nat, 1 ≤ N → N < 894784854 →
        ∃ s, BufMgr.new N = some s ∧ s.numBufs = N ∧ s.bufDescTable.length = N ∧
          s.bufPool.length = N ∧ (∀ d ∈ s.bufDescTable, d.valid = false) ∧ FrameNoOk s ∧
          s.clockHand = N - 1 ∧ s.hashTable = [] ∧ s.store = [] ∧
          s.allocBuf (k + 1) = .ok 0 { s with clockHand := 0 }) ∧
      (∀ N : Nat, 894784854 ≤ N → BufMgr.new N = none) := by
  refine ⟨?_, ?_, ?_, new_undefined⟩
  · intro s d k hN hd hv
    refine ⟨allocBufLoop_invalid_next s d k 0 hN (by omega) hd hv,
      fun hok => frameNo_of_ok hok hd, fun hlt => ?_⟩
    unfold BufMgr.nextFrame
    rw [Nat.mod_eq_of_lt hlt]
  · intro s k h1 h2 hlen hinv hok hhand
    exact allocBuf_fresh s k h1 h2 hlen hinv hok hhand
  · intro N k h1 h2
    obtain ⟨s, e0, e1, e2, e3, e4, e5, e6, e7, e8⟩ := new_eq N (by omega)
    have e : (N + 4294967296 - 1) % 4294967296 = N - 1 := by omega
    have hhand : s.clockHand = N - 1 := e6.trans e
    refine ⟨s, e0, e1, e2, e3, e4, e5, hhand, e7, e8, ?_⟩
    exact allocBuf_fresh s k (by omega) (by omega) (by rw [e2, e1]) e4 e5 (by rw [hhand, e1])

theorem allocBuf_invalid_next_witness :
    ({ poolHalf with clockHand := 0 } : BufMgr).allocBuf 1 = .ok 1 poolHalf ∧
      BufMgr.new 3 = some poolFresh ∧
      poolFresh.allocBuf 1 = .ok 0 { poolFresh with clockHand := 0 } ∧
      (∃ s, BufMgr.new 3 = some s ∧ s.numBufs = 3 ∧ s.bufDescTable.length = 3 ∧
          s.bufPool.length = 3 ∧ (∀ d ∈ s.bufDescTable, d.valid = false) ∧ FrameNoOk s ∧
          s.clockHand = 3 - 1 ∧ s.hashTable = [] ∧ s.store = [] ∧
          s.allocBuf (0 + 1) = .ok 0 { s with clockHand := 0 }) :=
  ⟨(allocBuf_invalid_next.1 { poolHalf with clockHand := 0 } (emptyFrame 1) 0
      (by decide) (by decide) (by decide)).1,
    by decide,
    allocBuf_invalid_next.2.1 poolFresh 0 (by decide) (by decide) (by decide) (by decide)
      (by decide) (by decide),
    allocBuf_invalid_next.2.2.1 3 0 (by decide) (by decide)⟩

/-- C19: when the descriptors are numbered by position, every call of `allocBuf` that returns
a frame returns the position of the clock hand after the call; that position is below
`numBufs`, it is an index of the descriptor table, and an index of the pool array when the
pool has `numBufs` pages. -/
theorem allocBuf_returns_hand (fuel : Nat) (s s2 : BufMgr) (frame : FrameId)
    (h : s.allocBuf fuel = .ok frame s2) (hok : FrameNoOk s) :
    frame = s2.clockHand ∧ frame < s.numBufs ∧ s2.numBufs = s.numBufs ∧
      frame < s2.bufDescTable.length ∧
      (s.bufPool.length = s.numBufs → frame < s2.bufPool.length) := by
  obtain ⟨d, h1, h2, h3, h4, h5, h6, -⟩ := allocBufLoop_ok fuel s s2 0 frame h
  have hf : frame = s2.clockHand := by
    rw [← h2]; exact frameNo_of_ok hok h1
  have hlen : s2.clockHand < s.bufDescTable.length := by
    obtain ⟨hlt, -⟩ := List.getElem?_eq_some.mp h1
    exact hlt
  refine ⟨hf, ?_, h3, ?_, fun hp => ?_⟩
  · rw [hf]; exact h6
  · rw [h4, hf]; exact hlen
  · rw [h5, hp, hf]; exact h6

theorem allocBuf_returns_hand_witness :
    poolCold.allocBuf 5
        = .ok 1 { poolCold with clockHand := 1, hashTable := [⟨7, 1, 0⟩, ⟨7, 3, 2⟩] } ∧
      (1 = 1 ∧ 1 < 3 ∧ 3 = 3 ∧ 1 < 3 ∧ (3 = 3 → 1 < 3)) :=
  ⟨by decide,
    allocBuf_returns_hand 5 poolCold
      { poolCold with clockHand := 1, hashTable := [⟨7, 1, 0⟩, ⟨7, 3, 2⟩] } 1
      (by decide) (by decide)⟩

end badgerdb
